import Mathlib

/-!
Verification of the connection-handling and command-dispatch core in
src/redis_request.cc: the resumable RESP decoder (Request::Tokenize), the
batch dispatcher (Request::ExecuteCommands) and the subscription bookkeeping
(Connection::SubscribeChannel / UnSubscribeChannel).

Byte strings are modelled as `List Nat` (one entry per byte).  Machine
integers are modelled as `Nat`/`Int`; `strtoull` reduces its result modulo
2^64 and the signed field `multi_bulk_len_` is the two-complement
reinterpretation of that 64-bit value.
-/

namespace Redis

/-- isspace as used by strtoull: space and the five control whitespace bytes. -/
def isSpaceB (b : Nat) : Bool := b = 32 ∨ (9 ≤ b ∧ b ≤ 13)

/-- ASCII decimal digit. -/
def isDigitB (b : Nat) : Bool := 48 ≤ b ∧ b ≤ 57

/-- Accumulate the value of a run of ASCII digit bytes, most significant first. -/
def digitsVal (l : List Nat) : Nat := l.foldl (fun a d => a * 10 + (d - 48)) 0

/-- Model of C `strtoull(s, nullptr, 10)` on the byte string `s` (the C string
terminator is the end of the list): skip whitespace, consume at most one sign
byte, fold the leading decimal digits; the result saturates at ULLONG_MAX and a
minus sign negates modulo 2^64. -/
def strtoull (s : List Nat) : Nat :=
  let s1 := s.dropWhile isSpaceB
  let s2 := if s1.head? = some 45 ∨ s1.head? = some 43 then s1.tail else s1
  let v0 := digitsVal (s2.takeWhile isDigitB)
  let v := if v0 < 2 ^ 64 then v0 else 2 ^ 64 - 1
  if s1.head? = some 45 then (2 ^ 64 - v) % 2 ^ 64 else v

/-- Reinterpret an unsigned 64-bit value as a signed int64 (assignment of the
strtoull result to the signed `multi_bulk_len_`). -/
def toInt64 (v : Nat) : Int := if v < 2 ^ 63 then (v : Int) else (v : Int) - 2 ^ 64

/-- Index of the first CRLF pair in a byte list (EVBUFFER_EOL_CRLF_STRICT). -/
def findCRLF : List Nat → Option Nat
  | [] => none
  | a :: rest =>
    if a = 13 ∧ rest.head? = some 10 then some 0
    else (findCRLF rest).map (· + 1)

/-- Model of `evbuffer_readln(buf, &len, EVBUFFER_EOL_CRLF_STRICT)`: the line
before the first CRLF together with the buffer contents after that CRLF, or
`none` when no complete line is available. -/
def readln (buf : List Nat) : Option (List Nat × List Nat) :=
  (findCRLF buf).map fun i => (buf.take i, buf.drop (i + 2))

/-- Parser states of `Request` (ArrayLen / BulkLen / BulkData in the source). -/
inductive ReqState where
  | ArrayLen
  | BulkLen
  | BulkData
deriving DecidableEq, Repr

/-- The `Request` parser state together with the session's inbound evbuffer
(`buffer`) and the inbound-byte telemetry counter (`inbond_bytes`, the running
total of `svr_->stats_.IncrInbondBytes` calls made by `Tokenize`). -/
structure Request where
  state_ : ReqState
  multi_bulk_len_ : Int
  bulk_len_ : Nat
  tokens_ : List (List Nat)
  commands_ : List (List (List Nat))
  inbond_bytes : Nat
  buffer : List Nat
deriving DecidableEq, Repr

/-- A fresh `Request`: state ArrayLen, empty token/command queues, empty buffer. -/
def initReq : Request :=
  { state_ := ReqState.ArrayLen, multi_bulk_len_ := 0, bulk_len_ := 0
    tokens_ := [], commands_ := [], inbond_bytes := 0, buffer := [] }

/-- One iteration of the `while (true)` loop of `Request::Tokenize`;
`none` means the loop returns (insufficient input).  For an empty header line
the source calls `strtoull(line + 1)` on bytes past the end of the line
(see the C10 analysis below); the model evaluates the parse on the empty
remainder instead, which yields 0. -/
def stepTokenize (r : Request) : Option Request :=
  match r.state_ with
  | ReqState.ArrayLen =>
    match readln r.buffer with
    | none => none
    | some (line, rest) =>
      some { r with
        buffer := rest
        inbond_bytes := r.inbond_bytes + line.length
        multi_bulk_len_ := if 0 < line.length then toInt64 (strtoull (line.drop 1)) else 0
        state_ := ReqState.BulkLen }
  | ReqState.BulkLen =>
    match readln r.buffer with
    | none => none
    | some (line, rest) =>
      some { r with
        buffer := rest
        inbond_bytes := r.inbond_bytes + line.length
        bulk_len_ := strtoull (line.drop 1)
        state_ := ReqState.BulkData }
  | ReqState.BulkData =>
    if r.buffer.length < r.bulk_len_ + 2 then none
    else
      let data := r.buffer.take r.bulk_len_
      let r1 : Request := { r with
        tokens_ := r.tokens_ ++ [data]
        buffer := r.buffer.drop (r.bulk_len_ + 2)
        inbond_bytes := r.inbond_bytes + (r.bulk_len_ + 2)
        multi_bulk_len_ := r.multi_bulk_len_ - 1 }
      if r1.multi_bulk_len_ ≤ 0 then
        some { r1 with
               state_ := ReqState.ArrayLen
               commands_ := r1.commands_ ++ [r1.tokens_]
               tokens_ := [] }
      else
        some { r1 with state_ := ReqState.BulkLen }

/-- The element count stored by the ArrayLen arm (redis_request.cc line 132):
`len > 0 ? strtoull(line + 1, nullptr, 10) : 0`, with the unsigned result
reinterpreted as the signed `multi_bulk_len_`.  A negative written count such
as `*-1` lands here as a negative value via the strtoull sign branch. -/
def declaredCount (line : List Nat) : Int :=
  if 0 < line.length then toInt64 (strtoull (line.drop 1)) else 0

/-- Fuel-bounded iteration of `stepTokenize`. -/
def runFuel : Nat → Request → Request
  | 0, r => r
  | n + 1, r =>
    match stepTokenize r with
    | none => r
    | some r2 => runFuel n r2

/-- Run the `Tokenize` loop to quiescence.  Every fired iteration consumes at
least two buffer bytes, so the buffer length is enough fuel. -/
def tokenizeRun (r : Request) : Request := runFuel r.buffer.length r

/-- New bytes delivered by the transport are appended to the inbound buffer. -/
def appendBuf (r : Request) (c : List Nat) : Request := { r with buffer := r.buffer ++ c }

/-- `Request::Tokenize` invoked after `input` arrives on the connection. -/
def Request.Tokenize (r : Request) (input : List Nat) : Request :=
  tokenizeRun (appendBuf r input)

/-- Deliver a sequence of byte chunks, invoking `Tokenize` once per chunk
(one `OnRead` event per delivery). -/
def feedChunks : Request → List (List Nat) → Request
  | r, [] => r
  | r, c :: cs => feedChunks (Request.Tokenize r c) cs

/-! ### Well-formed wire encoding of commands (§6 of the spec's grammar) -/
/-- Big-endian decimal digits of `n` (empty for 0); fuel-driven recursion. -/
def natDigitsAux : Nat → Nat → List Nat
  | 0, _ => []
  | fuel + 1, n => if n = 0 then [] else natDigitsAux fuel (n / 10) ++ [n % 10]

def natDigits (n : Nat) : List Nat := natDigitsAux n n

/-- ASCII decimal rendering of `n` (a nonempty digit-byte string). -/
def encodeDigits (n : Nat) : List Nat :=
  if n = 0 then [48] else (natDigits n).map (· + 48)

/-- A RESP header line: tag byte, decimal count, CRLF. -/
def encodeLine (tag : Nat) (n : Nat) : List Nat := tag :: encodeDigits n ++ [13, 10]

/-- A bulk element: `$<len>\x0d\x0a<payload>\x0d\x0a`. -/
def encodeBulk (tok : List Nat) : List Nat := encodeLine 36 tok.length ++ tok ++ [13, 10]

def encodeBulks : List (List Nat) → List Nat
  | [] => []
  | t :: ts => encodeBulk t ++ encodeBulks ts

/-- A multi-bulk command: `*<n>\x0d\x0a` followed by its `n` bulk elements. -/
def encodeCommand (toks : List (List Nat)) : List Nat :=
  encodeLine 42 toks.length ++ encodeBulks toks

def encodeCommands : List (List (List Nat)) → List Nat
  | [] => []
  | c :: cs => encodeCommand c ++ encodeCommands cs

/-- A well-formed command: at least one token, counts within the machine
ranges the parser reproduces exactly. -/
def WFCommand (toks : List (List Nat)) : Prop :=
  toks ≠ [] ∧ toks.length < 2 ^ 63 ∧ ∀ t ∈ toks, t.length < 2 ^ 64

def WFBatch (cmds : List (List (List Nat))) : Prop := ∀ c ∈ cmds, WFCommand c

instance : DecidablePred WFCommand := fun toks => by
  unfold WFCommand; infer_instance

instance : DecidablePred WFBatch := fun cmds => by
  unfold WFBatch; infer_instance

/-- Value of a raw digit list, most significant first. -/
def rawVal (l : List Nat) : Nat := l.foldl (fun a d => a * 10 + d) 0

/-- Telemetry bytes recorded while consuming one encoded bulk (header line
without terminator, then payload plus terminator). -/
def bulkCost (t : List Nat) : Nat := 1 + (encodeDigits t.length).length + (t.length + 2)

def bulksCost : List (List Nat) → Nat
  | [] => 0
  | t :: ts => bulkCost t + bulksCost ts

/-- Length of the last token (the value `bulk_len_` retains afterwards). -/
def lastTokenLen : List (List Nat) → Nat
  | [] => 0
  | [t] => t.length
  | _ :: t2 :: ts => lastTokenLen (t2 :: ts)

/-- Concrete batch for the C3 witness: the single command GET foo. -/
def w3cmds : List (List (List Nat)) := [[[71, 69, 84], [102, 111, 111]]]

/-- The encoding of `w3cmds` split at boundaries that cut both a header line
and a bulk payload. -/
def w3chunks : List (List Nat) :=
  [[42, 50, 13, 10, 36, 51, 13, 10, 71], [69, 84, 13, 10, 36, 51], [13, 10, 102, 111, 111, 13, 10]]

/-! ### C7: the assembly invariant of the in-progress command -/
/-- Tokens assembled so far plus the remaining pending element count. -/
def assembled (r : Request) : Int := (r.tokens_.length : Int) + r.multi_bulk_len_

def c7r1 : Request :=
  { state_ := ReqState.BulkLen, multi_bulk_len_ := 2, bulk_len_ := 0
    tokens_ := [[97]], commands_ := [], inbond_bytes := 0
    buffer := [36, 49, 13, 10, 98, 13, 10] }

def c7r2 : Request :=
  { state_ := ReqState.BulkData, multi_bulk_len_ := 2, bulk_len_ := 1
    tokens_ := [[97]], commands_ := [], inbond_bytes := 2
    buffer := [98, 13, 10] }

def c7r3 : Request :=
  { state_ := ReqState.BulkData, multi_bulk_len_ := 2, bulk_len_ := 5
    tokens_ := [], commands_ := [], inbond_bytes := 0, buffer := [97, 98] }

/-- Iterate `stepTokenize` exactly `k` times, failing if the loop suspends
before then. -/
def stepsN : Nat → Request → Option Request
  | 0, r => some r
  | n + 1, r => (stepTokenize r).bind (stepsN n)

def c7r4 : Request :=
  { state_ := ReqState.BulkLen, multi_bulk_len_ := 1, bulk_len_ := 1
    tokens_ := [[97], [98]], commands_ := [], inbond_bytes := 5, buffer := [] }

/-! ### C8: inbound telemetry versus consumed bytes -/
def c8input : List Nat := [42, 49, 13, 10, 36, 51, 13, 10, 97, 98, 99, 13, 10]

def c8w1 : Request :=
  { state_ := ReqState.ArrayLen, multi_bulk_len_ := 0, bulk_len_ := 0
    tokens_ := [], commands_ := [], inbond_bytes := 0, buffer := [42, 49, 13, 10] }

def c8w2 : Request :=
  { state_ := ReqState.BulkLen, multi_bulk_len_ := 1, bulk_len_ := 0
    tokens_ := [], commands_ := [], inbond_bytes := 2, buffer := [] }

/-! ### The dispatcher: Request::ExecuteCommands

Commands themselves (redis_cmd) are external collaborators; a command's
registry entry is modelled abstractly by `CommandAttr`. -/
/-- A reply emitted on the connection: either `Redis::Error(msg)` or a raw
reply payload produced by a command. -/
inductive Reply where
  | err (msg : String)
  | raw (payload : String)
deriving DecidableEq, Repr

/-- Which branch of the per-command pipeline fired (observable control flow of
the loop body of `ExecuteCommands`). -/
inductive Outcome where
  | noauth
  | unknown
  | badArity
  | parseFail
  | readonly
  | execFail
  | execOk
deriving DecidableEq, Repr

/-- Modelled from the spec: the registry descriptor of a resolved command —
its canonical name, declared arity, write classification, argument-parse step
and execution result.  `Commander` lives in redis_cmd, outside this file's
source, so its behaviour is abstracted into these fields. -/
structure CommandAttr where
  name : String
  arity : Int
  is_write : Bool
  parse : List (List Nat) → Option String
  exec_ok : Bool
  exec_msg : String
  exec_reply : String
  exec_sets_close : Bool

/-- Server-wide state consulted by the dispatcher: loading flag, replica
read-only configuration, replica role, and the command registry
(`LookupCommand(name, is_repl)`, modelled from the spec as a lookup map). -/
structure ServerEnv where
  is_loading : Bool
  slave_readonly : Bool
  is_slave : Bool
  lookup : List Nat → Bool → Option CommandAttr

/-- Session state read or written by the dispatcher. -/
structure Conn where
  ns : List Nat
  is_repl : Bool
  close_after_reply : Bool
  last_cmd : String
deriving DecidableEq, Repr

/-- Observable result of processing one command of the batch. -/
structure CmdOut where
  conn : Conn
  replies : List Reply
  lookups : List (List Nat)
  executed : List String
  outcome : Outcome
deriving DecidableEq, Repr

/-- Observable result of the batch loop. -/
structure LoopOut where
  conn : Conn
  replies : List Reply
  lookups : List (List Nat)
  executed : List String
deriving DecidableEq, Repr

/-- Observable result of one `ExecuteCommands` invocation. -/
structure DispatchOut where
  req : Request
  conn : Conn
  replies : List Reply
  lookups : List (List Nat)
  executed : List String
deriving DecidableEq, Repr

/-- Modelled from the spec: `Util::ToLower` on one ASCII byte (case-insensitive
command-name comparison); Util lives outside this file's source. -/
def lowerByte (b : Nat) : Nat := if 65 ≤ b ∧ b ≤ 90 then b + 32 else b

def lowerBytes (l : List Nat) : List Nat := l.map lowerByte

/-- The byte string "auth". -/
def authBytes : List Nat := [97, 117, 116, 104]

def noauthMsg : String := "NOAUTH Authentication required."

def unknownMsg : String := "ERR unknown command"

def wrongArgsMsg : String := "ERR wrong number of arguments"

def readonlyMsg : String := "READONLY You can\x27t write against a read only slave."

def loadingMsg : String := "replication in progress"

/-- The arity test of the source: positive arity demands an exact token count,
negative arity demands at least its absolute value. -/
def arityMismatch (arity : Int) (tokens : Nat) : Prop :=
  (arity > 0 ∧ (tokens : Int) ≠ arity) ∨ (arity < 0 ∧ (tokens : Int) < -arity)

instance (arity : Int) (tokens : Nat) : Decidable (arityMismatch arity tokens) := by
  unfold arityMismatch; infer_instance

/-- The pipeline from `SetArgs`/`Parse` onward: parse failure replies with the
parse message; then the replica read-only gate; then `SetLastCmd`,
`IncrCalls` and `Execute` (whose failure replies `ERR <msg>` and whose
non-empty reply payload is forwarded). -/
def execPhase (env : ServerEnv) (conn : Conn) (cmd : List (List Nat))
    (attr : CommandAttr) : CmdOut :=
  match attr.parse cmd with
  | some m =>
    { conn := conn, replies := [Reply.err m], lookups := [cmd.headD []]
      executed := [], outcome := Outcome.parseFail }
  | none =>
    if env.slave_readonly = true ∧ env.is_slave = true ∧ attr.is_write = true then
      { conn := conn, replies := [Reply.err readonlyMsg], lookups := [cmd.headD []]
        executed := [], outcome := Outcome.readonly }
    else
      let c2 : Conn := { conn with
        last_cmd := attr.name
        close_after_reply := conn.close_after_reply || attr.exec_sets_close }
      if attr.exec_ok = false then
        { conn := c2, replies := [Reply.err ("ERR " ++ attr.exec_msg)]
          lookups := [cmd.headD []], executed := [attr.name], outcome := Outcome.execFail }
      else
        { conn := c2
          replies := if attr.exec_reply = "" then [] else [Reply.raw attr.exec_reply]
          lookups := [cmd.headD []], executed := [attr.name], outcome := Outcome.execOk }

/-- One iteration of the command loop of `ExecuteCommands`: authentication
gate, registry lookup, arity check, then `execPhase`. -/
def runCmd (env : ServerEnv) (conn : Conn) (cmd : List (List Nat)) : CmdOut :=
  if conn.ns = [] ∧ lowerBytes (cmd.headD []) ≠ authBytes then
    { conn := conn, replies := [Reply.err noauthMsg], lookups := []
      executed := [], outcome := Outcome.noauth }
  else
    match env.lookup (cmd.headD []) conn.is_repl with
    | none =>
      { conn := conn, replies := [Reply.err unknownMsg], lookups := [cmd.headD []]
        executed := [], outcome := Outcome.unknown }
    | some attr =>
      if arityMismatch attr.arity cmd.length then
        { conn := conn, replies := [Reply.err wrongArgsMsg], lookups := [cmd.headD []]
          executed := [], outcome := Outcome.badArity }
      else
        execPhase env conn cmd attr

/-- The `for (auto &cmd_tokens : commands_)` loop, including the
close-after-reply break at the top of each iteration. -/
def execList (env : ServerEnv) : Conn → List (List (List Nat)) → LoopOut
  | conn, [] => { conn := conn, replies := [], lookups := [], executed := [] }
  | conn, cmd :: rest =>
    if conn.close_after_reply = true then
      { conn := conn, replies := [], lookups := [], executed := [] }
    else
      let o := runCmd env conn cmd
      let t := execList env o.conn rest
      { conn := t.conn, replies := o.replies ++ t.replies
        lookups := o.lookups ++ t.lookups, executed := o.executed ++ t.executed }

/-- `Request::ExecuteCommands`: empty batch returns; an active loading state
replies once and returns WITHOUT clearing `commands_` (the clear at the end of
the function is only reached on the normal path). -/
def ExecuteCommands (env : ServerEnv) (r : Request) (conn : Conn) : DispatchOut :=
  if r.commands_ = [] then
    { req := r, conn := conn, replies := [], lookups := [], executed := [] }
  else if env.is_loading = true then
    { req := r, conn := conn, replies := [Reply.err loadingMsg], lookups := [], executed := [] }
  else
    let t := execList env conn r.commands_
    { req := { r with commands_ := [] }, conn := t.conn, replies := t.replies
      lookups := t.lookups, executed := t.executed }

/-! ### C1: the loading gate does not discard the pending batch -/
def pingBytes : List Nat := [112, 105, 110, 103]

def pingAttr : CommandAttr :=
  { name := "ping", arity := -1, is_write := false, parse := fun _ => none
    exec_ok := true, exec_msg := "", exec_reply := "+PONG", exec_sets_close := false }

def c1env : ServerEnv :=
  { is_loading := true, slave_readonly := false, is_slave := false
    lookup := fun n _ => if n = pingBytes then some pingAttr else none }

def c1conn : Conn :=
  { ns := [110, 115], is_repl := false, close_after_reply := false, last_cmd := "" }

def c1req : Request := { initReq with commands_ := [[pingBytes], [pingBytes], [pingBytes]] }

/-! ### Witnesses for the dispatcher theorems -/
def c4env : ServerEnv :=
  { is_loading := false, slave_readonly := false, is_slave := false
    lookup := fun n _ => if n = pingBytes then some pingAttr else none }

def c4conn : Conn :=
  { ns := [], is_repl := false, close_after_reply := false, last_cmd := "" }

def c4cmd : List (List Nat) := [[71, 69, 84], [102, 111, 111]]

def c4rest : List (List (List Nat)) := [[pingBytes]]

def c4req : Request := { initReq with commands_ := c4cmd :: c4rest }

def c5attr : CommandAttr :=
  { name := "set", arity := 3, is_write := true, parse := fun _ => none
    exec_ok := true, exec_msg := "", exec_reply := "+OK", exec_sets_close := false }

def c5env : ServerEnv :=
  { is_loading := false, slave_readonly := false, is_slave := false
    lookup := fun n _ => if n = [115, 101, 116] then some c5attr else none }

def c5conn : Conn :=
  { ns := [110, 115], is_repl := false, close_after_reply := false, last_cmd := "" }

def c5cmd : List (List Nat) := [[115, 101, 116], [107]]

def c6wattr : CommandAttr :=
  { name := "set", arity := -3, is_write := true, parse := fun _ => none
    exec_ok := true, exec_msg := "", exec_reply := "+OK", exec_sets_close := false }

def c6rattr : CommandAttr :=
  { name := "get", arity := 2, is_write := false, parse := fun _ => none
    exec_ok := true, exec_msg := "", exec_reply := "$3 v", exec_sets_close := false }

def c6env : ServerEnv :=
  { is_loading := false, slave_readonly := true, is_slave := true
    lookup := fun n _ =>
      if n = [115, 101, 116] then some c6wattr
      else if n = [103, 101, 116] then some c6rattr else none }

def c6conn : Conn :=
  { ns := [110, 115], is_repl := false, close_after_reply := false, last_cmd := "" }

def c6wcmd : List (List Nat) := [[115, 101, 116], [107], [118]]

def c6rcmd : List (List Nat) := [[103, 101, 116], [107]]

/-! ### C9: channel subscription bookkeeping -/
/-- `Connection::SubscribeChannel`: a linear scan returns early when the
channel is already subscribed (no registry call); otherwise the channel is
appended and the server-wide registry is notified.  The second component lists
the registry notifications made. -/
def SubscribeChannel (chans : List String) (channel : String) : List String × List String :=
  if channel ∈ chans then (chans, [])
  else (chans ++ [channel], [channel])

/-- One iteration of the `for (; iter != end; iter++)` loop of
`Connection::UnSubscribeChannel`, at the level of a vector index: the loop
test compares the index with the current length; a matching element is erased
(shifting the suffix left) and the registry notified, after which the index is
still incremented — the source has no break.  A dereference past the end of
the vector (possible because erasing leaves the index beyond the shrunken
container) is undefined behaviour, modelled as `none`. -/
def unsubIter : Nat → List String → String → Nat → Nat → Option (List String × Nat)
  | 0, _, _, _, _ => none
  | fuel + 1, v, c, i, n =>
    if i = v.length then some (v, n)
    else
      match v.get? i with
      | none => none
      | some x =>
        if x = c then unsubIter fuel (v.eraseIdx i) c (i + 1) (n + 1)
        else unsubIter fuel v c (i + 1) n

/-- `Connection::UnSubscribeChannel` on the subscription list `v`: the final
list and the number of registry notifications, or `none` when the loop
dereferences out of bounds. -/
def UnSubscribeChannel (v : List String) (c : String) : Option (List String × Nat) :=
  unsubIter (v.length + 2) v c 0 0

/-! ### C10: the unguarded bulk-header parse -/
/-- Indices read by the character scan strtoull performs from index `start`
of the C string `cstr` (the header line's bytes followed by its NUL): the
first read is unconditional, and the scan advances only over whitespace, sign
or digit bytes; a read past the end of the allocation is the last recorded
index. -/
def scanReads : Nat → List Nat → Nat → List Nat
  | 0, _, i => [i]
  | fuel + 1, cstr, i =>
    match cstr.get? i with
    | none => [i]
    | some b =>
      if isSpaceB b = true ∨ b = 43 ∨ b = 45 ∨ isDigitB b = true then
        i :: scanReads fuel cstr (i + 1)
      else [i]

/-- All reads of `strtoull(line + start)` stay inside the line's allocation
(`line.length + 1` bytes including the NUL terminator). -/
def accessesInBounds (line : List Nat) (start : Nat) : Prop :=
  ∀ i ∈ scanReads (line.length + 2) (line ++ [0]) start, i < line.length + 1

instance (line : List Nat) (start : Nat) : Decidable (accessesInBounds line start) := by
  unfold accessesInBounds; infer_instance

/-! ### Theorems -/

/-! ### Generic list lemmas used by the decoder proofs -/
theorem take_append_left (l m : List Nat) (n : Nat) (h : n ≤ l.length) :
    (l ++ m).take n = l.take n := by
  induction l generalizing n with
  | nil =>
    have hn : n = 0 := by simpa using h
    subst hn; simp
  | cons a t ih =>
    cases n with
    | zero => simp
    | succ k =>
      simp only [List.cons_append, List.take_succ_cons]
      rw [ih]
      simpa using h

theorem drop_append_left (l m : List Nat) (n : Nat) (h : n ≤ l.length) :
    (l ++ m).drop n = l.drop n ++ m := by
  induction l generalizing n with
  | nil =>
    have hn : n = 0 := by simpa using h
    subst hn; simp
  | cons a t ih =>
    cases n with
    | zero => simp
    | succ k =>
      simp only [List.cons_append, List.drop_succ_cons]
      rw [ih]
      simpa using h

theorem take_length_append (l m : List Nat) : (l ++ m).take l.length = l := by
  rw [take_append_left l m l.length le_rfl, List.take_length]

theorem drop_length_append (l m : List Nat) : (l ++ m).drop l.length = m := by
  rw [drop_append_left l m l.length le_rfl, List.drop_length]
  simp

/-! ### Properties of findCRLF and readln -/
theorem findCRLF_bound (b : List Nat) (i : Nat) (h : findCRLF b = some i) :
    i + 2 ≤ b.length := by
  induction b generalizing i with
  | nil => simp [findCRLF] at h
  | cons a rest ih =>
    rw [findCRLF] at h
    by_cases hc : a = 13 ∧ rest.head? = some 10
    · rw [if_pos hc] at h
      cases h
      cases rest with
      | nil => simp at hc
      | cons x t => simp
    · rw [if_neg hc] at h
      rcases Option.map_eq_some'.mp h with ⟨j, hj, rfl⟩
      have := ih j hj
      simp only [List.length_cons]
      omega

theorem findCRLF_append (b c : List Nat) (i : Nat) (h : findCRLF b = some i) :
    findCRLF (b ++ c) = some i := by
  induction b generalizing i with
  | nil => simp [findCRLF] at h
  | cons a rest ih =>
    rw [findCRLF] at h
    by_cases hc : a = 13 ∧ rest.head? = some 10
    · rw [if_pos hc] at h
      cases h
      have hrest : rest ≠ [] := by
        intro hnil; rw [hnil] at hc; simp at hc
      have hhead : (rest ++ c).head? = some 10 := by
        cases rest with
        | nil => exact absurd rfl hrest
        | cons x t => simpa using hc.2
      rw [List.cons_append, findCRLF, if_pos ⟨hc.1, hhead⟩]
    · rw [if_neg hc] at h
      rcases Option.map_eq_some'.mp h with ⟨j, hj, rfl⟩
      have hrest : rest ≠ [] := by
        intro hnil; rw [hnil] at hj; simp [findCRLF] at hj
      have hhead : (rest ++ c).head? = rest.head? := by
        cases rest with
        | nil => exact absurd rfl hrest
        | cons x t => simp
      rw [List.cons_append, findCRLF, hhead, if_neg hc, ih j hj]
      simp

theorem findCRLF_no13 (l r : List Nat) (h13 : 13 ∉ l) :
    findCRLF (l ++ 13 :: 10 :: r) = some l.length := by
  induction l with
  | nil => simp [findCRLF]
  | cons a t ih =>
    have ha : a ≠ 13 := fun h => h13 (h ▸ List.mem_cons_self a t)
    have ht : 13 ∉ t := fun h => h13 (List.mem_cons_of_mem a h)
    rw [List.cons_append, findCRLF, if_neg (fun hc => ha hc.1), ih ht]
    simp

theorem readln_append (b c line rest : List Nat) (h : readln b = some (line, rest)) :
    readln (b ++ c) = some (line, rest ++ c) := by
  rcases Option.map_eq_some'.mp h with ⟨i, hi, heq⟩
  have hb := findCRLF_bound b i hi
  rw [readln, findCRLF_append b c i hi]
  simp only [Option.map_some']
  have h1 : (b ++ c).take i = b.take i := take_append_left b c i (by omega)
  have h2 : (b ++ c).drop (i + 2) = b.drop (i + 2) ++ c := drop_append_left b c (i + 2) hb
  simp only [h1, h2]
  cases heq
  rfl

theorem readln_line (l r : List Nat) (h13 : 13 ∉ l) :
    readln (l ++ 13 :: 10 :: r) = some (l, r) := by
  rw [readln, findCRLF_no13 l r h13]
  simp only [Option.map_some']
  have h1 : (l ++ 13 :: 10 :: r).take l.length = l := take_length_append l _
  have h2 : (l ++ 13 :: 10 :: r).drop (l.length + 2) = r := by
    have : l ++ 13 :: 10 :: r = (l ++ [13, 10]) ++ r := by simp
    rw [this]
    have hlen : (l ++ [13, 10]).length = l.length + 2 := by simp
    rw [← hlen, drop_length_append]
  rw [h1, h2]

theorem readln_bound (b line rest : List Nat) (h : readln b = some (line, rest)) :
    line.length + 2 + rest.length = b.length ∧ line.length + 2 ≤ b.length := by
  rcases Option.map_eq_some'.mp h with ⟨i, hi, heq⟩
  have hb := findCRLF_bound b i hi
  cases heq
  constructor
  · simp only [List.length_take, List.length_drop]
    omega
  · simp only [List.length_take]
    omega

/-! ### The Tokenize loop: termination fuel and run equations -/
theorem stepTokenize_nil (r : Request) (h : r.buffer = []) : stepTokenize r = none := by
  rw [stepTokenize]
  cases hs : r.state_ <;> simp [readln, h, findCRLF]

theorem stepTokenize_lt (r r2 : Request) (h : stepTokenize r = some r2) :
    r2.buffer.length < r.buffer.length := by
  cases hs : r.state_ <;> simp only [stepTokenize, hs] at h
  · cases hr : readln r.buffer with
    | none => rw [hr] at h; cases h
    | some p =>
      rcases p with ⟨line, rest⟩
      rw [hr] at h
      simp only [Option.some.injEq] at h
      subst h
      have hb := (readln_bound r.buffer line rest hr).1
      show rest.length < r.buffer.length
      omega
  · cases hr : readln r.buffer with
    | none => rw [hr] at h; cases h
    | some p =>
      rcases p with ⟨line, rest⟩
      rw [hr] at h
      simp only [Option.some.injEq] at h
      subst h
      have hb := (readln_bound r.buffer line rest hr).1
      show rest.length < r.buffer.length
      omega
  · by_cases hlen : r.buffer.length < r.bulk_len_ + 2
    · rw [if_pos hlen] at h; cases h
    · rw [if_neg hlen] at h
      split at h <;> simp only [Option.some.injEq] at h <;> subst h <;>
        (show (r.buffer.drop (r.bulk_len_ + 2)).length < r.buffer.length) <;>
        simp only [List.length_drop] <;> omega

theorem runFuel_congr : ∀ (f1 f2 : Nat) (r : Request),
    r.buffer.length ≤ f1 → r.buffer.length ≤ f2 → runFuel f1 r = runFuel f2 r := by
  intro f1
  induction f1 with
  | zero =>
    intro f2 r h1 h2
    have hb : r.buffer = [] := List.length_eq_zero.mp (Nat.le_zero.mp h1)
    have hn := stepTokenize_nil r hb
    cases f2 with
    | zero => rfl
    | succ k => simp [runFuel, hn]
  | succ k ih =>
    intro f2 r h1 h2
    cases hstep : stepTokenize r with
    | none =>
      cases f2 with
      | zero => simp [runFuel, hstep]
      | succ m => simp [runFuel, hstep]
    | some r2 =>
      have hlt := stepTokenize_lt r r2 hstep
      have hpos : 0 < r.buffer.length := Nat.pos_of_ne_zero (by
        intro h0
        rw [stepTokenize_nil r (List.length_eq_zero.mp h0)] at hstep
        cases hstep)
      cases f2 with
      | zero => omega
      | succ m =>
        simp only [runFuel, hstep]
        exact ih m r2 (by omega) (by omega)

theorem tokenizeRun_eq_none (r : Request) (h : stepTokenize r = none) : tokenizeRun r = r := by
  rw [tokenizeRun]
  cases hl : r.buffer.length with
  | zero => rfl
  | succ k => simp [runFuel, h]

theorem tokenizeRun_eq_some (r r2 : Request) (h : stepTokenize r = some r2) :
    tokenizeRun r = tokenizeRun r2 := by
  have hlt := stepTokenize_lt r r2 h
  rw [tokenizeRun, tokenizeRun]
  cases hl : r.buffer.length with
  | zero =>
    rw [stepTokenize_nil r (List.length_eq_zero.mp hl)] at h
    cases h
  | succ k =>
    simp only [runFuel, h]
    exact runFuel_congr k r2.buffer.length r2 (by omega) le_rfl

theorem tokenizeRun_stuck_aux : ∀ (n : Nat) (r : Request), r.buffer.length ≤ n →
    stepTokenize (tokenizeRun r) = none := by
  intro n
  induction n with
  | zero =>
    intro r h
    have hb : r.buffer = [] := List.length_eq_zero.mp (Nat.le_zero.mp h)
    have hn := stepTokenize_nil r hb
    rw [tokenizeRun_eq_none r hn]
    exact hn
  | succ k ih =>
    intro r h
    cases hstep : stepTokenize r with
    | none => rw [tokenizeRun_eq_none r hstep]; exact hstep
    | some r2 =>
      have hlt := stepTokenize_lt r r2 hstep
      rw [tokenizeRun_eq_some r r2 hstep]
      exact ih r2 (by omega)

theorem tokenizeRun_stuck (r : Request) : stepTokenize (tokenizeRun r) = none :=
  tokenizeRun_stuck_aux r.buffer.length r le_rfl

/-! ### Append stability: delivering bytes later commutes with running -/
theorem appendBuf_nil (r : Request) : appendBuf r [] = r := by
  simp [appendBuf]

theorem appendBuf_append (r : Request) (c d : List Nat) :
    appendBuf (appendBuf r c) d = appendBuf r (c ++ d) := by
  simp [appendBuf]

theorem appendBuf_state (r : Request) (c : List Nat) : (appendBuf r c).state_ = r.state_ := rfl

theorem stepTokenize_append (r r2 : Request) (c : List Nat) (h : stepTokenize r = some r2) :
    stepTokenize (appendBuf r c) = some (appendBuf r2 c) := by
  cases hs : r.state_ <;> simp only [stepTokenize, hs] at h <;>
    simp only [stepTokenize, appendBuf_state, hs, appendBuf]
  · cases hr : readln r.buffer with
    | none => rw [hr] at h; cases h
    | some p =>
      rcases p with ⟨line, rest⟩
      rw [hr] at h
      simp only [Option.some.injEq] at h
      subst h
      rw [readln_append r.buffer c line rest hr]
  · cases hr : readln r.buffer with
    | none => rw [hr] at h; cases h
    | some p =>
      rcases p with ⟨line, rest⟩
      rw [hr] at h
      simp only [Option.some.injEq] at h
      subst h
      rw [readln_append r.buffer c line rest hr]
  · by_cases hlen : r.buffer.length < r.bulk_len_ + 2
    · rw [if_pos hlen] at h; cases h
    · rw [if_neg hlen] at h
      have hble : r.bulk_len_ + 2 ≤ r.buffer.length := Nat.le_of_not_lt hlen
      have hlen2 : ¬ (r.buffer ++ c).length < r.bulk_len_ + 2 := by
        simp only [List.length_append]; omega
      rw [if_neg hlen2]
      have htake : (r.buffer ++ c).take r.bulk_len_ = r.buffer.take r.bulk_len_ :=
        take_append_left r.buffer c r.bulk_len_ (by omega)
      have hdrop : (r.buffer ++ c).drop (r.bulk_len_ + 2) = r.buffer.drop (r.bulk_len_ + 2) ++ c :=
        drop_append_left r.buffer c (r.bulk_len_ + 2) hble
      rw [htake, hdrop]
      split at h <;> simp only [Option.some.injEq] at h <;> subst h <;> simp_all

theorem tokenizeRun_append_aux : ∀ (n : Nat) (r : Request), r.buffer.length ≤ n → ∀ c,
    tokenizeRun (appendBuf (tokenizeRun r) c) = tokenizeRun (appendBuf r c) := by
  intro n
  induction n with
  | zero =>
    intro r h c
    have hb : r.buffer = [] := List.length_eq_zero.mp (Nat.le_zero.mp h)
    rw [tokenizeRun_eq_none r (stepTokenize_nil r hb)]
  | succ k ih =>
    intro r h c
    cases hstep : stepTokenize r with
    | none => rw [tokenizeRun_eq_none r hstep]
    | some r2 =>
      have hlt := stepTokenize_lt r r2 hstep
      rw [tokenizeRun_eq_some r r2 hstep]
      rw [ih r2 (by omega) c]
      rw [tokenizeRun_eq_some (appendBuf r c) (appendBuf r2 c)
        (stepTokenize_append r r2 c hstep)]

theorem tokenizeRun_append (r : Request) (c : List Nat) :
    tokenizeRun (appendBuf (tokenizeRun r) c) = tokenizeRun (appendBuf r c) :=
  tokenizeRun_append_aux r.buffer.length r le_rfl c

/-- Chunked delivery equals one-shot delivery, for a quiescent starting state. -/
theorem feedChunks_flatten : ∀ (cs : List (List Nat)) (r : Request),
    stepTokenize r = none → feedChunks r cs = tokenizeRun (appendBuf r cs.flatten) := by
  intro cs
  induction cs with
  | nil =>
    intro r h
    rw [feedChunks, List.flatten_nil, appendBuf_nil, tokenizeRun_eq_none r h]
  | cons c cs ih =>
    intro r h
    rw [feedChunks]
    have h1 : Request.Tokenize r c = tokenizeRun (appendBuf r c) := rfl
    rw [h1, ih (tokenizeRun (appendBuf r c)) (tokenizeRun_stuck (appendBuf r c))]
    rw [tokenizeRun_append (appendBuf r c) cs.flatten, appendBuf_append, List.flatten_cons]

/-! ### Digit round-trip: the parser recovers an encoded count -/
theorem natDigitsAux_zero (fuel : Nat) : natDigitsAux fuel 0 = [] := by
  cases fuel <;> simp [natDigitsAux]

theorem natDigitsAux_congr : ∀ (f1 f2 n : Nat), n ≤ f1 → n ≤ f2 →
    natDigitsAux f1 n = natDigitsAux f2 n := by
  intro f1
  induction f1 with
  | zero =>
    intro f2 n h1 _
    have : n = 0 := Nat.le_zero.mp h1
    subst this
    rw [natDigitsAux_zero, natDigitsAux_zero]
  | succ k ih =>
    intro f2 n h1 h2
    by_cases hn : n = 0
    · subst hn; rw [natDigitsAux_zero, natDigitsAux_zero]
    · have hpos : 0 < n := Nat.pos_of_ne_zero hn
      cases f2 with
      | zero => omega
      | succ m =>
        simp only [natDigitsAux, if_neg hn]
        have hdiv : n / 10 < n := Nat.div_lt_self hpos (by omega)
        rw [ih m (n / 10) (by omega) (by omega)]

theorem natDigits_pos (n : Nat) (h : 0 < n) :
    natDigits n = natDigits (n / 10) ++ [n % 10] := by
  obtain ⟨k, hk⟩ : ∃ k, n = k + 1 := ⟨n - 1, by omega⟩
  subst hk
  rw [natDigits, natDigits]
  simp only [natDigitsAux, if_neg (Nat.succ_ne_zero k)]
  have hdiv : (k + 1) / 10 < k + 1 := Nat.div_lt_self (by omega) (by omega)
  rw [natDigitsAux_congr k ((k + 1) / 10) ((k + 1) / 10) (by omega) le_rfl]

theorem rawVal_append_one (l : List Nat) (d : Nat) :
    rawVal (l ++ [d]) = rawVal l * 10 + d := by
  rw [rawVal, rawVal, List.foldl_append]
  rfl

theorem rawVal_natDigits (n : Nat) : rawVal (natDigits n) = n := by
  induction n using Nat.strong_induction_on with
  | _ n ih =>
    by_cases hn : n = 0
    · subst hn
      rw [natDigits, natDigitsAux_zero]
      rfl
    · have hpos : 0 < n := Nat.pos_of_ne_zero hn
      have hdiv : n / 10 < n := Nat.div_lt_self hpos (by omega)
      rw [natDigits_pos n hpos, rawVal_append_one, ih (n / 10) hdiv]
      omega

theorem natDigits_lt_ten (n : Nat) : ∀ d ∈ natDigits n, d < 10 := by
  induction n using Nat.strong_induction_on with
  | _ n ih =>
    intro d hd
    by_cases hn : n = 0
    · subst hn; rw [natDigits, natDigitsAux_zero] at hd; cases hd
    · have hpos : 0 < n := Nat.pos_of_ne_zero hn
      have hdiv : n / 10 < n := Nat.div_lt_self hpos (by omega)
      rw [natDigits_pos n hpos] at hd
      rcases List.mem_append.mp hd with h1 | h2
      · exact ih (n / 10) hdiv d h1
      · simp at h2
        subst h2
        exact Nat.mod_lt n (by omega)

theorem encodeDigits_range (n : Nat) : ∀ b ∈ encodeDigits n, 48 ≤ b ∧ b ≤ 57 := by
  intro b hb
  rw [encodeDigits] at hb
  by_cases hn : n = 0
  · rw [if_pos hn] at hb
    simp at hb
    subst hb
    omega
  · rw [if_neg hn] at hb
    rcases List.mem_map.mp hb with ⟨d, hd, rfl⟩
    have := natDigits_lt_ten n d hd
    omega

theorem encodeDigits_no13 (n : Nat) : 13 ∉ encodeDigits n := by
  intro h
  have := encodeDigits_range n 13 h
  omega

theorem encodeDigits_ne_nil (n : Nat) : encodeDigits n ≠ [] := by
  rw [encodeDigits]
  by_cases hn : n = 0
  · rw [if_pos hn]; simp
  · rw [if_neg hn]
    have hpos : 0 < n := Nat.pos_of_ne_zero hn
    rw [natDigits_pos n hpos]
    simp

theorem digitsVal_map (l : List Nat) : digitsVal (l.map (· + 48)) = rawVal l := by
  rw [digitsVal, rawVal, List.foldl_map]
  congr 1

theorem takeWhile_all {p : Nat → Bool} (l : List Nat) (h : ∀ b ∈ l, p b = true) :
    l.takeWhile p = l := by
  induction l with
  | nil => rfl
  | cons a t ih =>
    rw [List.takeWhile_cons, h a (List.mem_cons_self a t)]
    simp [ih fun b hb => h b (List.mem_cons_of_mem a hb)]

/-- strtoull applied to the ASCII rendering of `n < 2^64` returns `n`. -/
theorem strtoull_encodeDigits (n : Nat) (h : n < 2 ^ 64) :
    strtoull (encodeDigits n) = n := by
  have hne := encodeDigits_ne_nil n
  obtain ⟨b, l, hb⟩ : ∃ b l, encodeDigits n = b :: l := by
    cases he : encodeDigits n with
    | nil => exact absurd he hne
    | cons x t => exact ⟨x, t, rfl⟩
  have hrange : ∀ x ∈ encodeDigits n, 48 ≤ x ∧ x ≤ 57 := encodeDigits_range n
  have hbr := hrange b (by rw [hb]; exact List.mem_cons_self b l)
  have hdrop : (encodeDigits n).dropWhile isSpaceB = encodeDigits n := by
    rw [hb, List.dropWhile_cons]
    have : isSpaceB b = false := by
      rw [isSpaceB]
      simp only [decide_eq_false_iff_not]
      omega
    rw [this]
    simp
  rw [strtoull]
  simp only [hdrop]
  have hhead : (encodeDigits n).head? = some b := by rw [hb]; rfl
  have h45 : ¬ ((encodeDigits n).head? = some 45 ∨ (encodeDigits n).head? = some 43) := by
    rw [hhead]
    intro hor
    rcases hor with h1 | h1 <;> (simp at h1; omega)
  rw [if_neg h45]
  have h45b : ¬ (encodeDigits n).head? = some 45 := fun hx => h45 (Or.inl hx)
  rw [if_neg h45b]
  have hdig : ∀ x ∈ encodeDigits n, isDigitB x = true := by
    intro x hx
    have := hrange x hx
    rw [isDigitB]
    simp only [decide_eq_true_eq]
    omega
  rw [takeWhile_all (encodeDigits n) hdig]
  have hval : digitsVal (encodeDigits n) = n := by
    rw [encodeDigits]
    by_cases hn : n = 0
    · rw [if_pos hn, hn]; rfl
    · rw [if_neg hn, digitsVal_map, rawVal_natDigits]
  rw [hval, if_pos h]

theorem toInt64_small (n : Nat) (h : n < 2 ^ 63) : toInt64 n = (n : Int) := by
  rw [toInt64, if_pos h]

/-! ### Tokenize consumes an encoded header / bulk exactly -/
theorem step_arrayHeader (r : Request) (n : Nat) (rest : List Nat)
    (hs : r.state_ = ReqState.ArrayLen)
    (hb : r.buffer = encodeLine 42 n ++ rest) (hn : n < 2 ^ 63) :
    stepTokenize r = some { r with
      state_ := ReqState.BulkLen
      multi_bulk_len_ := (n : Int)
      inbond_bytes := r.inbond_bytes + (1 + (encodeDigits n).length)
      buffer := rest } := by
  have hline : readln r.buffer = some (42 :: encodeDigits n, rest) := by
    rw [hb, encodeLine]
    have h13 : 13 ∉ 42 :: encodeDigits n := by
      intro hm
      rcases List.mem_cons.mp hm with h1 | h2
      · omega
      · exact encodeDigits_no13 n h2
    have : (42 :: encodeDigits n ++ [13, 10]) ++ rest = (42 :: encodeDigits n) ++ 13 :: 10 :: rest := by
      simp
    rw [this]
    exact readln_line (42 :: encodeDigits n) rest h13
  simp only [stepTokenize, hs, hline]
  have hpos : 0 < (42 :: encodeDigits n).length := by simp
  have hdrop : (42 :: encodeDigits n).drop 1 = encodeDigits n := rfl
  rw [if_pos hpos, hdrop, strtoull_encodeDigits n (by omega), toInt64_small n hn]
  have hlen : (42 :: encodeDigits n).length = 1 + (encodeDigits n).length := by
    simp [Nat.add_comm]
  rw [hlen]

theorem step_bulkHeader (r : Request) (n : Nat) (rest : List Nat)
    (hs : r.state_ = ReqState.BulkLen)
    (hb : r.buffer = encodeLine 36 n ++ rest) (hn : n < 2 ^ 64) :
    stepTokenize r = some { r with
      state_ := ReqState.BulkData
      bulk_len_ := n
      inbond_bytes := r.inbond_bytes + (1 + (encodeDigits n).length)
      buffer := rest } := by
  have hline : readln r.buffer = some (36 :: encodeDigits n, rest) := by
    rw [hb, encodeLine]
    have h13 : 13 ∉ 36 :: encodeDigits n := by
      intro hm
      rcases List.mem_cons.mp hm with h1 | h2
      · omega
      · exact encodeDigits_no13 n h2
    have : (36 :: encodeDigits n ++ [13, 10]) ++ rest = (36 :: encodeDigits n) ++ 13 :: 10 :: rest := by
      simp
    rw [this]
    exact readln_line (36 :: encodeDigits n) rest h13
  simp only [stepTokenize, hs, hline]
  have hdrop : (36 :: encodeDigits n).drop 1 = encodeDigits n := rfl
  rw [hdrop, strtoull_encodeDigits n hn]
  have hlen : (36 :: encodeDigits n).length = 1 + (encodeDigits n).length := by
    simp [Nat.add_comm]
  rw [hlen]

theorem step_bulkBody (r : Request) (t : List Nat) (rest : List Nat)
    (hs : r.state_ = ReqState.BulkData)
    (hb : r.buffer = t ++ 13 :: 10 :: rest)
    (hl : r.bulk_len_ = t.length) :
    stepTokenize r = some (
      if r.multi_bulk_len_ - 1 ≤ 0 then
        { r with
          state_ := ReqState.ArrayLen
          tokens_ := []
          commands_ := r.commands_ ++ [r.tokens_ ++ [t]]
          multi_bulk_len_ := r.multi_bulk_len_ - 1
          inbond_bytes := r.inbond_bytes + (t.length + 2)
          buffer := rest }
      else
        { r with
          state_ := ReqState.BulkLen
          tokens_ := r.tokens_ ++ [t]
          multi_bulk_len_ := r.multi_bulk_len_ - 1
          inbond_bytes := r.inbond_bytes + (t.length + 2)
          buffer := rest }) := by
  have hblen : r.buffer.length = t.length + 2 + rest.length := by
    rw [hb]
    simp only [List.length_append, List.length_cons]
    omega
  have hnotlt : ¬ r.buffer.length < r.bulk_len_ + 2 := by
    rw [hblen, hl]; omega
  have heq : t ++ 13 :: 10 :: rest = (t ++ [13, 10]) ++ rest := by simp
  have htake : r.buffer.take r.bulk_len_ = t := by
    rw [hb, hl, take_append_left t (13 :: 10 :: rest) t.length (le_refl _), List.take_length]
  have hdrop : r.buffer.drop (r.bulk_len_ + 2) = rest := by
    rw [hb, hl, heq]
    have hlen2 : (t ++ [13, 10]).length = t.length + 2 := by simp
    rw [← hlen2, drop_length_append]
  simp only [stepTokenize, hs, if_neg hnotlt, htake, hdrop]
  rw [hl]
  by_cases hm : r.multi_bulk_len_ - 1 ≤ 0
  · rw [if_pos hm, if_pos hm]
  · rw [if_neg hm, if_neg hm]

/-! ### Running the decoder over a full encoded command -/
theorem Request.ext2 (a b : Request)
    (h1 : a.state_ = b.state_) (h2 : a.multi_bulk_len_ = b.multi_bulk_len_)
    (h3 : a.bulk_len_ = b.bulk_len_) (h4 : a.tokens_ = b.tokens_)
    (h5 : a.commands_ = b.commands_) (h6 : a.inbond_bytes = b.inbond_bytes)
    (h7 : a.buffer = b.buffer) : a = b := by
  cases a; cases b; simp_all

theorem run_bulks : ∀ (toks : List (List Nat)) (r : Request) (cur : List (List Nat)) (rest : List Nat),
    toks ≠ [] →
    (∀ t ∈ toks, t.length < 2 ^ 64) →
    r.state_ = ReqState.BulkLen →
    r.tokens_ = cur →
    r.multi_bulk_len_ = (toks.length : Int) →
    r.buffer = encodeBulks toks ++ rest →
    tokenizeRun r = tokenizeRun
      { state_ := ReqState.ArrayLen
        multi_bulk_len_ := 0
        bulk_len_ := lastTokenLen toks
        tokens_ := []
        commands_ := r.commands_ ++ [cur ++ toks]
        inbond_bytes := r.inbond_bytes + bulksCost toks
        buffer := rest } := by
  intro toks
  induction toks with
  | nil => intro r cur rest hne; exact absurd rfl hne
  | cons t ts ih =>
    intro r cur rest hne hlen hs htok hmulti hbuf
    have hlt : t.length < 2 ^ 64 := hlen t (List.mem_cons_self t ts)
    have hbuf1 : r.buffer = encodeLine 36 t.length ++ (t ++ 13 :: 10 :: (encodeBulks ts ++ rest)) := by
      rw [hbuf, encodeBulks, encodeBulk]
      simp
    have hstep1 := step_bulkHeader r t.length _ hs hbuf1 hlt
    rw [tokenizeRun_eq_some r _ hstep1]
    have hstep2 := step_bulkBody
      { r with
        state_ := ReqState.BulkData
        bulk_len_ := t.length
        inbond_bytes := r.inbond_bytes + (1 + (encodeDigits t.length).length)
        buffer := t ++ 13 :: 10 :: (encodeBulks ts ++ rest) }
      t (encodeBulks ts ++ rest) rfl rfl rfl
    cases ts with
    | nil =>
      have hm1 : r.multi_bulk_len_ = (1 : Int) := by
        rw [hmulti]; rfl
      have hcond : r.multi_bulk_len_ - 1 ≤ 0 := by rw [hm1]; omega
      rw [if_pos (show ({ r with
        state_ := ReqState.BulkData
        bulk_len_ := t.length
        inbond_bytes := r.inbond_bytes + (1 + (encodeDigits t.length).length)
        buffer := t ++ 13 :: 10 :: (encodeBulks [] ++ rest) } : Request).multi_bulk_len_ - 1 ≤ 0 from hcond)] at hstep2
      rw [tokenizeRun_eq_some _ _ hstep2]
      congr 1
      apply Request.ext2 <;> simp [encodeBulks, bulksCost, bulkCost, lastTokenLen, htok, hm1]
      omega
    | cons t2 ts2 =>
      have hm1 : r.multi_bulk_len_ = ((ts2.length + 2 : Nat) : Int) := by
        rw [hmulti]; simp; omega
      have hcond : ¬ ({ r with
        state_ := ReqState.BulkData
        bulk_len_ := t.length
        inbond_bytes := r.inbond_bytes + (1 + (encodeDigits t.length).length)
        buffer := t ++ 13 :: 10 :: (encodeBulks (t2 :: ts2) ++ rest) } : Request).multi_bulk_len_ - 1 ≤ 0 := by
        show ¬ r.multi_bulk_len_ - 1 ≤ 0
        rw [hm1]
        push_cast
        omega
      rw [if_neg hcond] at hstep2
      rw [tokenizeRun_eq_some _ _ hstep2]
      have hnext := ih
        { r with
          state_ := ReqState.BulkLen
          tokens_ := r.tokens_ ++ [t]
          multi_bulk_len_ := r.multi_bulk_len_ - 1
          bulk_len_ := t.length
          inbond_bytes := r.inbond_bytes + (1 + (encodeDigits t.length).length) + (t.length + 2)
          buffer := encodeBulks (t2 :: ts2) ++ rest }
        (cur ++ [t]) rest (by simp)
        (fun x hx => hlen x (List.mem_cons_of_mem t hx))
        rfl
        (by show r.tokens_ ++ [t] = cur ++ [t]; rw [htok])
        (by show r.multi_bulk_len_ - 1 = _; rw [hm1]; push_cast; simp; omega)
        rfl
      rw [hnext]
      congr 1
      apply Request.ext2 <;>
        simp [lastTokenLen, bulksCost, bulkCost, htok]
      omega

theorem run_cmds : ∀ (cmds : List (List (List Nat))) (r : Request),
    WFBatch cmds → r.state_ = ReqState.ArrayLen → r.tokens_ = [] →
    r.buffer = encodeCommands cmds →
    (tokenizeRun r).commands_ = r.commands_ ++ cmds ∧
    (tokenizeRun r).state_ = ReqState.ArrayLen ∧
    (tokenizeRun r).tokens_ = [] ∧ (tokenizeRun r).buffer = [] := by
  intro cmds
  induction cmds with
  | nil =>
    intro r hwf hs htok hbuf
    have hnil : r.buffer = [] := by rw [hbuf]; rfl
    rw [tokenizeRun_eq_none r (stepTokenize_nil r hnil)]
    exact ⟨by simp, hs, htok, hnil⟩
  | cons c cs ih =>
    intro r hwf hs htok hbuf
    have hwc : WFCommand c := hwf c (List.mem_cons_self c cs)
    rcases hwc with ⟨hcne, hclen, hctoks⟩
    have hbuf1 : r.buffer = encodeLine 42 c.length ++ (encodeBulks c ++ encodeCommands cs) := by
      rw [hbuf, encodeCommands, encodeCommand]
      simp
    have hstep1 := step_arrayHeader r c.length _ hs hbuf1 hclen
    rw [tokenizeRun_eq_some r _ hstep1]
    have hrb := run_bulks c
      { r with
        state_ := ReqState.BulkLen
        multi_bulk_len_ := (c.length : Int)
        inbond_bytes := r.inbond_bytes + (1 + (encodeDigits c.length).length)
        buffer := encodeBulks c ++ encodeCommands cs }
      [] (encodeCommands cs) hcne hctoks rfl htok rfl rfl
    rw [hrb]
    have hnext := ih
      { state_ := ReqState.ArrayLen
        multi_bulk_len_ := 0
        bulk_len_ := lastTokenLen c
        tokens_ := []
        commands_ := r.commands_ ++ [[] ++ c]
        inbond_bytes := r.inbond_bytes + (1 + (encodeDigits c.length).length) + bulksCost c
        buffer := encodeCommands cs }
      (fun x hx => hwf x (List.mem_cons_of_mem c hx))
      rfl rfl rfl
    refine ⟨?_, hnext.2.1, hnext.2.2.1, hnext.2.2.2⟩
    rw [hnext.1]
    simp

/-- Decoding the full encoding of a well-formed batch yields exactly that
batch, one command per frame. -/
theorem decode_encode (cmds : List (List (List Nat))) (hwf : WFBatch cmds) :
    (Request.Tokenize initReq (encodeCommands cmds)).commands_ = cmds ∧
    (Request.Tokenize initReq (encodeCommands cmds)).state_ = ReqState.ArrayLen ∧
    (Request.Tokenize initReq (encodeCommands cmds)).tokens_ = [] ∧
    (Request.Tokenize initReq (encodeCommands cmds)).buffer = [] := by
  have h := run_cmds cmds (appendBuf initReq (encodeCommands cmds)) hwf rfl rfl (by
    show [] ++ encodeCommands cmds = encodeCommands cmds
    simp)
  exact h

/-- C3: For any well-formed command byte sequence and any partition of it into
contiguous chunks fed to successive decode invocations, the decoder produces
exactly the same ordered list of commands and tokens as a single invocation on
the whole sequence (indeed the identical final state), namely one command per
frame of the encoding, never zero, never duplicated, never corrupted. -/
theorem C3_chunk_boundary_independence (cmds : List (List (List Nat)))
    (chunks : List (List Nat)) (hwf : WFBatch cmds)
    (hjoin : chunks.flatten = encodeCommands cmds) :
    feedChunks initReq chunks = Request.Tokenize initReq chunks.flatten ∧
    (feedChunks initReq chunks).commands_ = cmds := by
  have hq : stepTokenize initReq = none := by
    apply stepTokenize_nil
    rfl
  have h1 : feedChunks initReq chunks = Request.Tokenize initReq chunks.flatten :=
    feedChunks_flatten chunks initReq hq
  refine ⟨h1, ?_⟩
  rw [h1, hjoin]
  exact (decode_encode cmds hwf).1

theorem C3_witness :
    feedChunks initReq w3chunks = Request.Tokenize initReq w3chunks.flatten ∧
    (feedChunks initReq w3chunks).commands_ = w3cmds :=
  C3_chunk_boundary_independence w3cmds w3chunks (by decide) (by decide)

/-! ### C2: behaviour of a declared element count of zero -/
/-- C2 counterexample: on the sole input `*0` CRLF the decoder completes no
command at all (the claimed immediately-complete zero-token command would be
`[[]]`); it moves to the bulk-header state and waits. -/
theorem C2_counterexample :
    (Request.Tokenize initReq [42, 48, 13, 10]).commands_ = [] ∧
    (Request.Tokenize initReq [42, 48, 13, 10]).state_ = ReqState.BulkLen ∧
    (Request.Tokenize initReq [42, 48, 13, 10]).commands_ ≠ [[]] := by decide

/-- The ArrayLen arm consuming an arbitrary complete header line: whatever
line the strict-CRLF read returns is drained together with its terminator,
its length is accounted, `declaredCount` of the line is stored, and the state
moves to BulkLen. -/
theorem step_arrayHeaderLine (r : Request) (hline rest : List Nat)
    (hs : r.state_ = ReqState.ArrayLen)
    (hb : r.buffer = hline ++ 13 :: 10 :: rest)
    (hl : findCRLF (hline ++ [13, 10]) = some hline.length) :
    stepTokenize r = some { r with
      state_ := ReqState.BulkLen
      multi_bulk_len_ := declaredCount hline
      inbond_bytes := r.inbond_bytes + hline.length
      buffer := rest } := by
  have hfind : findCRLF (hline ++ 13 :: 10 :: rest) = some hline.length := by
    have h2 : hline ++ 13 :: 10 :: rest = (hline ++ [13, 10]) ++ rest := by simp
    rw [h2]
    exact findCRLF_append (hline ++ [13, 10]) rest hline.length hl
  have hreadln : readln r.buffer = some (hline, rest) := by
    rw [hb, readln, hfind]
    simp only [Option.map_some']
    have h1 : (hline ++ 13 :: 10 :: rest).take hline.length = hline := by
      rw [take_append_left hline _ hline.length le_rfl, List.take_length]
    have h2 : (hline ++ 13 :: 10 :: rest).drop (hline.length + 2) = rest := by
      have h3 : hline ++ 13 :: 10 :: rest = (hline ++ [13, 10]) ++ rest := by simp
      have h4 : (hline ++ [13, 10]).length = hline.length + 2 := by simp
      rw [h3, ← h4, drop_length_append]
    rw [h1, h2]
  simp only [stepTokenize, hs, hreadln, declaredCount]

/-- C2 amended: for EVERY header line whose declared element count is ≤ 0
(a zero written in any form, a missing/empty count recorded as 0, or a
negative count such as `*-1` stored through the sign/two-complement path),
the decoder completes no command at the header: it stores that count and
enters the bulk-header state, and the pending command completes — with
exactly one token — only after one further complete bulk element arrives. -/
theorem C2_amended_count_zero (hline t : List Nat)
    (hl : findCRLF (hline ++ [13, 10]) = some hline.length)
    (hcount : declaredCount hline ≤ 0)
    (ht : t.length < 2 ^ 64) :
    (Request.Tokenize initReq (hline ++ [13, 10])).commands_ = [] ∧
    (Request.Tokenize initReq (hline ++ [13, 10])).state_ = ReqState.BulkLen ∧
    (Request.Tokenize initReq (hline ++ [13, 10])).multi_bulk_len_ = declaredCount hline ∧
    (Request.Tokenize initReq ((hline ++ [13, 10]) ++ encodeBulk t)).commands_ = [[t]] ∧
    (Request.Tokenize initReq ((hline ++ [13, 10]) ++ encodeBulk t)).state_ = ReqState.ArrayLen := by
  have hstep1 : stepTokenize (appendBuf initReq (hline ++ [13, 10])) =
      some { state_ := ReqState.BulkLen, multi_bulk_len_ := declaredCount hline, bulk_len_ := 0
             tokens_ := [], commands_ := [], inbond_bytes := 0 + hline.length
             buffer := [] } :=
    step_arrayHeaderLine _ hline [] rfl
      (by show [] ++ (hline ++ [13, 10]) = hline ++ 13 :: 10 :: []; simp)
      hl
  have hrun1 : Request.Tokenize initReq (hline ++ [13, 10]) =
      { state_ := ReqState.BulkLen, multi_bulk_len_ := declaredCount hline, bulk_len_ := 0
        tokens_ := [], commands_ := [], inbond_bytes := 0 + hline.length, buffer := [] } := by
    show tokenizeRun (appendBuf initReq (hline ++ [13, 10])) = _
    rw [tokenizeRun_eq_some _ _ hstep1]
    exact tokenizeRun_eq_none _ (stepTokenize_nil _ rfl)
  have hstep1b : stepTokenize (appendBuf initReq ((hline ++ [13, 10]) ++ encodeBulk t)) =
      some { state_ := ReqState.BulkLen, multi_bulk_len_ := declaredCount hline, bulk_len_ := 0
             tokens_ := [], commands_ := [], inbond_bytes := 0 + hline.length
             buffer := encodeBulk t } :=
    step_arrayHeaderLine _ hline (encodeBulk t) rfl
      (by show [] ++ ((hline ++ [13, 10]) ++ encodeBulk t) = hline ++ 13 :: 10 :: encodeBulk t
          simp)
      hl
  have hstep2 : stepTokenize
      { state_ := ReqState.BulkLen, multi_bulk_len_ := declaredCount hline, bulk_len_ := 0
        tokens_ := [], commands_ := [], inbond_bytes := 0 + hline.length
        buffer := encodeBulk t } =
      some { state_ := ReqState.BulkData, multi_bulk_len_ := declaredCount hline
             bulk_len_ := t.length, tokens_ := [], commands_ := []
             inbond_bytes := 0 + hline.length + (1 + (encodeDigits t.length).length)
             buffer := t ++ [13, 10] } :=
    step_bulkHeader _ t.length (t ++ [13, 10]) rfl
      (by show encodeBulk t = encodeLine 36 t.length ++ (t ++ [13, 10])
          rw [encodeBulk, List.append_assoc])
      ht
  have hstep3 := step_bulkBody
      { state_ := ReqState.BulkData, multi_bulk_len_ := declaredCount hline
        bulk_len_ := t.length, tokens_ := [], commands_ := []
        inbond_bytes := 0 + hline.length + (1 + (encodeDigits t.length).length)
        buffer := t ++ [13, 10] }
      t [] rfl rfl rfl
  rw [if_pos (show declaredCount hline - 1 ≤ 0 by omega)] at hstep3
  have hrun2 : Request.Tokenize initReq ((hline ++ [13, 10]) ++ encodeBulk t) =
      { state_ := ReqState.ArrayLen, multi_bulk_len_ := declaredCount hline - 1
        bulk_len_ := t.length, tokens_ := [], commands_ := [[t]]
        inbond_bytes := 0 + hline.length + (1 + (encodeDigits t.length).length) + (t.length + 2)
        buffer := [] } := by
    show tokenizeRun (appendBuf initReq ((hline ++ [13, 10]) ++ encodeBulk t)) = _
    rw [tokenizeRun_eq_some _ _ hstep1b, tokenizeRun_eq_some _ _ hstep2,
        tokenizeRun_eq_some _ _ hstep3]
    exact tokenizeRun_eq_none _ (stepTokenize_nil _ rfl)
  exact ⟨by rw [hrun1], by rw [hrun1], by rw [hrun1], by rw [hrun2], by rw [hrun2]⟩

/-- One in-progress decoder step (neither starting from nor completing into
the ArrayLen state) preserves the assembled-plus-pending sum. -/
theorem assembled_step (r r2 : Request) (h : stepTokenize r = some r2)
    (hna : r.state_ ≠ ReqState.ArrayLen) (hna2 : r2.state_ ≠ ReqState.ArrayLen) :
    assembled r2 = assembled r := by
  cases hs : r.state_
  · exact absurd hs hna
  · simp only [stepTokenize, hs] at h
    cases hr : readln r.buffer with
    | none => rw [hr] at h; cases h
    | some p =>
      rcases p with ⟨line, rest⟩
      rw [hr] at h
      simp only [Option.some.injEq] at h
      subst h
      rfl
  · simp only [stepTokenize, hs] at h
    by_cases hlen : r.buffer.length < r.bulk_len_ + 2
    · rw [if_pos hlen] at h; cases h
    · rw [if_neg hlen] at h
      split at h <;> simp only [Option.some.injEq] at h <;> subst h
      · exact absurd rfl hna2
      · show ((r.tokens_ ++ [r.buffer.take r.bulk_len_]).length : Int) +
          (r.multi_bulk_len_ - 1) = assembled r
        rw [assembled]
        simp only [List.length_append, List.length_cons, List.length_nil]
        push_cast
        omega

theorem stepsN_shift (r r1 : Request) (hs : stepTokenize r = some r1) (j : Nat) :
    stepsN (j + 1) r = stepsN j r1 := by
  show (stepTokenize r).bind (stepsN j) = stepsN j r1
  rw [hs, Option.some_bind]

theorem assembled_steps : ∀ (k : Nat) (r r2 : Request),
    stepsN k r = some r2 →
    (∀ j ∈ List.range (k + 1), (stepsN j r).map Request.state_ ≠ some ReqState.ArrayLen) →
    assembled r2 = assembled r := by
  intro k
  induction k with
  | zero =>
    intro r r2 h _
    simp only [stepsN, Option.some.injEq] at h
    subst h
    rfl
  | succ k ih =>
    intro r r2 h hst
    cases hs : stepTokenize r with
    | none =>
      rw [show stepsN (k + 1) r = (stepTokenize r).bind (stepsN k) from rfl, hs] at h
      cases h
    | some r1 =>
      have h1 : stepsN k r1 = some r2 := by
        rw [← stepsN_shift r r1 hs k]
        exact h
      have hr0 : r.state_ ≠ ReqState.ArrayLen := by
        have hx := hst 0 (by simp)
        intro he
        exact hx (by simp [stepsN, he])
      have hr1 : r1.state_ ≠ ReqState.ArrayLen := by
        have hx := hst 1 (by simp)
        rw [stepsN_shift r r1 hs 0] at hx
        intro he
        exact hx (by simp [stepsN, he])
      have hchain := assembled_step r r1 hs hr0 hr1
      have hnext := ih r1 r2 h1 (by
        intro j hj
        rw [← stepsN_shift r r1 hs j]
        exact hst (j + 1) (by simp only [List.mem_range] at hj ⊢; omega))
      rw [hnext, hchain]

/-- C7: while a command is in progress (states other than ArrayLen), every
decoder step that does not complete the command preserves
`assembled = currentTokens.length + pendingElementCount`, and so does any
number of such steps; the array-header step that declares the count leaves
the token list untouched (it is empty, so the sum then equals the declared
count); and in the bulk-body state with fewer than `bulk_len_ + 2` bytes
available the decoder suspends, consuming nothing, so it resumes exactly at
the saved state. -/
theorem C7_assembly_invariant (r r2 : Request) :
    (stepTokenize r = some r2 → r.state_ ≠ ReqState.ArrayLen →
      r2.state_ ≠ ReqState.ArrayLen → assembled r2 = assembled r) ∧
    (∀ k, stepsN k r = some r2 →
      (∀ j ∈ List.range (k + 1), (stepsN j r).map Request.state_ ≠ some ReqState.ArrayLen) →
      assembled r2 = assembled r) ∧
    (stepTokenize r = some r2 → r.state_ = ReqState.ArrayLen →
      r2.tokens_ = r.tokens_ ∧ r2.state_ = ReqState.BulkLen) ∧
    (r.state_ = ReqState.BulkData → r.buffer.length < r.bulk_len_ + 2 →
      stepTokenize r = none ∧ tokenizeRun r = r) := by
  refine ⟨fun h h1 h2 => assembled_step r r2 h h1 h2,
          fun k h hst => assembled_steps k r r2 h hst, ?_, ?_⟩
  · intro h hs
    simp only [stepTokenize, hs] at h
    cases hr : readln r.buffer with
    | none => rw [hr] at h; cases h
    | some p =>
      rcases p with ⟨line, rest⟩
      rw [hr] at h
      simp only [Option.some.injEq] at h
      subst h
      exact ⟨rfl, rfl⟩
  · intro hs hlen
    have hnone : stepTokenize r = none := by
      simp only [stepTokenize, hs, if_pos hlen]
    exact ⟨hnone, tokenizeRun_eq_none r hnone⟩

theorem C7_witness :
    assembled c7r2 = assembled c7r1 ∧
    assembled c7r4 = assembled c7r1 ∧
    (stepTokenize c7r3 = none ∧ tokenizeRun c7r3 = c7r3) :=
  ⟨(C7_assembly_invariant c7r1 c7r2).1 (by decide) (by decide) (by decide),
   (C7_assembly_invariant c7r1 c7r4).2.1 2 (by decide) (by decide),
   (C7_assembly_invariant c7r3 c7r3).2.2.2 (by decide) (by decide)⟩

/-- C8 counterexample: decoding `*1 $3 abc` consumes all 13 input bytes but
adds only 9 to the inbound telemetry — the two header lines are accounted
without their 2-byte terminators. -/
theorem C8_counterexample :
    (Request.Tokenize initReq c8input).inbond_bytes = 9 ∧
    c8input.length = 13 ∧
    (Request.Tokenize initReq c8input).buffer = [] ∧
    (Request.Tokenize initReq c8input).inbond_bytes ≠ c8input.length := by decide

/-- C8 amended: per decoder step, a consumed bulk body (payload plus
terminator) is fully accounted, while a consumed header line is accounted
2 bytes short of the bytes drained (its CRLF terminator is not counted). -/
theorem C8_amended_accounting (r r2 : Request) (h : stepTokenize r = some r2) :
    (r.state_ = ReqState.BulkData →
      r2.inbond_bytes = r.inbond_bytes + (r.buffer.length - r2.buffer.length)) ∧
    (r.state_ ≠ ReqState.BulkData →
      r2.inbond_bytes + 2 = r.inbond_bytes + (r.buffer.length - r2.buffer.length)) := by
  constructor
  · intro hs
    simp only [stepTokenize, hs] at h
    by_cases hlen : r.buffer.length < r.bulk_len_ + 2
    · rw [if_pos hlen] at h; cases h
    · rw [if_neg hlen] at h
      split at h <;> simp only [Option.some.injEq] at h <;> subst h <;>
        simp only [List.length_drop] <;> omega
  · intro hs
    cases hst : r.state_
    · simp only [stepTokenize, hst] at h
      cases hr : readln r.buffer with
      | none => rw [hr] at h; cases h
      | some p =>
        rcases p with ⟨line, rest⟩
        rw [hr] at h
        simp only [Option.some.injEq] at h
        subst h
        have hb := (readln_bound r.buffer line rest hr).1
        show r.inbond_bytes + line.length + 2 = r.inbond_bytes + (r.buffer.length - rest.length)
        omega
    · simp only [stepTokenize, hst] at h
      cases hr : readln r.buffer with
      | none => rw [hr] at h; cases h
      | some p =>
        rcases p with ⟨line, rest⟩
        rw [hr] at h
        simp only [Option.some.injEq] at h
        subst h
        have hb := (readln_bound r.buffer line rest hr).1
        show r.inbond_bytes + line.length + 2 = r.inbond_bytes + (r.buffer.length - rest.length)
        omega
    · exact absurd hst hs

theorem C8_witness :
    c8w2.inbond_bytes + 2 = c8w1.inbond_bytes + (c8w1.buffer.length - c8w2.buffer.length) :=
  (C8_amended_accounting c8w1 c8w2 (by decide)).2 (by decide)

/-- C1: dispatching a three-command batch while the server is loading yields
exactly one loading-error reply, zero lookups and zero executions — but the
early return does NOT clear `commands_`, so the identical stale batch is
re-executed by the next dispatch once loading ends, contradicting the claim
that the pending batch is discarded before the next read event. -/
theorem C1_loading_batch_not_discarded :
    (ExecuteCommands c1env c1req c1conn).replies = [Reply.err loadingMsg] ∧
    (ExecuteCommands c1env c1req c1conn).executed = [] ∧
    (ExecuteCommands c1env c1req c1conn).lookups = [] ∧
    (ExecuteCommands c1env c1req c1conn).req.commands_ = [[pingBytes], [pingBytes], [pingBytes]] ∧
    (ExecuteCommands { c1env with is_loading := false }
        (ExecuteCommands c1env c1req c1conn).req
        (ExecuteCommands c1env c1req c1conn).conn).executed = ["ping", "ping", "ping"] := by
  refine ⟨rfl, rfl, rfl, rfl, ?_⟩
  decide

/-! ### C4: the authentication gate -/
/-- C4: on an unauthenticated session (empty namespace), a command whose first
token is not `auth` (case-insensitively) draws exactly the
authentication-required error, is neither looked up nor executed, and the rest
of the batch is processed exactly as if that command were absent; the batch
queue is cleared afterwards. -/
theorem C4_auth_gate (env : ServerEnv) (r : Request) (conn : Conn)
    (cmd : List (List Nat)) (rest : List (List (List Nat)))
    (hload : env.is_loading = false)
    (hcmds : r.commands_ = cmd :: rest)
    (hns : conn.ns = [])
    (hflag : conn.close_after_reply = false)
    (hname : lowerBytes (cmd.headD []) ≠ authBytes) :
    (ExecuteCommands env r conn).replies =
      Reply.err noauthMsg :: (execList env conn rest).replies ∧
    (ExecuteCommands env r conn).lookups = (execList env conn rest).lookups ∧
    (ExecuteCommands env r conn).executed = (execList env conn rest).executed ∧
    (ExecuteCommands env r conn).conn = (execList env conn rest).conn ∧
    (ExecuteCommands env r conn).req.commands_ = [] := by
  have hne : ¬ r.commands_ = [] := by rw [hcmds]; simp
  have hnl : ¬ env.is_loading = true := by rw [hload]; simp
  have hnf : ¬ conn.close_after_reply = true := by rw [hflag]; simp
  have hrun : runCmd env conn cmd =
      { conn := conn, replies := [Reply.err noauthMsg], lookups := []
        executed := [], outcome := Outcome.noauth } := by
    rw [runCmd, if_pos ⟨hns, hname⟩]
  simp only [ExecuteCommands, if_neg hne, if_neg hnl, hcmds, execList, if_neg hnf, hrun]
  simp

/-! ### C5: arity enforcement -/
/-- C5: for a resolved command past the authentication gate, a positive
declared arity accepts exactly that token count and a negative declared arity
accepts at least its absolute value; an arity mismatch draws exactly the
wrong-number-of-arguments error, the command is not executed, and the batch
continues with the next command. -/
theorem C5_arity_enforcement (env : ServerEnv) (conn : Conn)
    (cmd : List (List Nat)) (attr : CommandAttr)
    (hns : conn.ns ≠ [])
    (hlk : env.lookup (cmd.headD []) conn.is_repl = some attr) :
    (attr.arity > 0 →
      ((runCmd env conn cmd).outcome ≠ Outcome.badArity ↔ (cmd.length : Int) = attr.arity)) ∧
    (attr.arity < 0 →
      ((runCmd env conn cmd).outcome ≠ Outcome.badArity ↔ -attr.arity ≤ (cmd.length : Int))) ∧
    (arityMismatch attr.arity cmd.length →
      runCmd env conn cmd =
        { conn := conn, replies := [Reply.err wrongArgsMsg], lookups := [cmd.headD []]
          executed := [], outcome := Outcome.badArity } ∧
      ∀ rest, conn.close_after_reply = false →
        execList env conn (cmd :: rest) =
          { execList env conn rest with
            replies := Reply.err wrongArgsMsg :: (execList env conn rest).replies
            lookups := cmd.headD [] :: (execList env conn rest).lookups }) := by
  have hgate : ¬ (conn.ns = [] ∧ lowerBytes (cmd.headD []) ≠ authBytes) := by
    intro hc
    exact hns hc.1
  have hrun0 : runCmd env conn cmd =
      if arityMismatch attr.arity cmd.length then
        { conn := conn, replies := [Reply.err wrongArgsMsg], lookups := [cmd.headD []]
          executed := [], outcome := Outcome.badArity }
      else execPhase env conn cmd attr := by
    rw [runCmd, if_neg hgate, hlk]
  have hphase : (execPhase env conn cmd attr).outcome ≠ Outcome.badArity := by
    rw [execPhase]
    cases hp : attr.parse cmd with
    | some m => simp
    | none =>
      by_cases hro : env.slave_readonly = true ∧ env.is_slave = true ∧ attr.is_write = true
      · rw [if_pos hro]; simp
      · rw [if_neg hro]
        by_cases he : attr.exec_ok = false
        · rw [if_pos he]; simp
        · rw [if_neg he]; simp
  refine ⟨?_, ?_, ?_⟩
  · intro hpos
    by_cases hm : arityMismatch attr.arity cmd.length
    · rw [hrun0, if_pos hm]
      constructor
      · intro hbad
        exact absurd rfl hbad
      · intro heq
        exfalso
        rcases hm with ⟨_, hne2⟩ | ⟨hneg, _⟩
        · exact hne2 heq
        · omega
    · rw [hrun0, if_neg hm]
      constructor
      · intro _
        by_contra hne2
        exact hm (Or.inl ⟨hpos, hne2⟩)
      · intro _; exact hphase
  · intro hneg
    by_cases hm : arityMismatch attr.arity cmd.length
    · rw [hrun0, if_pos hm]
      constructor
      · intro hbad
        exact absurd rfl hbad
      · intro hge
        exfalso
        rcases hm with ⟨hpos, _⟩ | ⟨_, hlt⟩
        · omega
        · omega
    · rw [hrun0, if_neg hm]
      constructor
      · intro _
        by_contra hlt
        exact hm (Or.inr ⟨hneg, by omega⟩)
      · intro _; exact hphase
  · intro hm
    have hout : runCmd env conn cmd =
        { conn := conn, replies := [Reply.err wrongArgsMsg], lookups := [cmd.headD []]
          executed := [], outcome := Outcome.badArity } := by
      rw [hrun0, if_pos hm]
    refine ⟨hout, ?_⟩
    intro rest hflag
    have hnf : ¬ conn.close_after_reply = true := by rw [hflag]; simp
    simp only [execList, if_neg hnf, hout]
    simp

/-! ### C6: the replica read-only gate -/
/-- C6: with replica read-only configured and the server in replica role, a
write-classified command that passed lookup, arity and parse draws the
read-only error and never executes, while a read-classified command in the
same state reaches Execute; and the gate sits after the parse step — a parse
failure replies with the parse message even for a write command. -/
theorem C6_readonly_gate (env : ServerEnv) (conn : Conn)
    (cmd : List (List Nat)) (attr : CommandAttr)
    (hns : conn.ns ≠ [])
    (hlk : env.lookup (cmd.headD []) conn.is_repl = some attr)
    (harity : ¬ arityMismatch attr.arity cmd.length)
    (hro : env.slave_readonly = true)
    (hsl : env.is_slave = true) :
    (attr.parse cmd = none → attr.is_write = true →
      runCmd env conn cmd =
        { conn := conn, replies := [Reply.err readonlyMsg], lookups := [cmd.headD []]
          executed := [], outcome := Outcome.readonly }) ∧
    (attr.parse cmd = none → attr.is_write = false →
      (runCmd env conn cmd).executed = [attr.name] ∧
      (runCmd env conn cmd).outcome ≠ Outcome.readonly) ∧
    (∀ m, attr.parse cmd = some m →
      runCmd env conn cmd =
        { conn := conn, replies := [Reply.err m], lookups := [cmd.headD []]
          executed := [], outcome := Outcome.parseFail }) := by
  have hgate : ¬ (conn.ns = [] ∧ lowerBytes (cmd.headD []) ≠ authBytes) := by
    intro hc
    exact hns hc.1
  have hrun0 : runCmd env conn cmd = execPhase env conn cmd attr := by
    rw [runCmd, if_neg hgate, hlk]
    exact if_neg harity
  refine ⟨?_, ?_, ?_⟩
  · intro hp hw
    rw [hrun0, execPhase, hp, if_pos ⟨hro, hsl, hw⟩]
  · intro hp hw
    rw [hrun0, execPhase, hp, if_neg (by rw [hw]; simp)]
    by_cases he : attr.exec_ok = false
    · rw [if_pos he]
      exact ⟨rfl, by simp⟩
    · rw [if_neg he]
      exact ⟨rfl, by simp⟩
  · intro m hp
    rw [hrun0, execPhase, hp]

theorem C4_witness :
    (ExecuteCommands c4env c4req c4conn).replies =
      Reply.err noauthMsg :: (execList c4env c4conn c4rest).replies ∧
    (ExecuteCommands c4env c4req c4conn).lookups = (execList c4env c4conn c4rest).lookups ∧
    (ExecuteCommands c4env c4req c4conn).executed = (execList c4env c4conn c4rest).executed ∧
    (ExecuteCommands c4env c4req c4conn).conn = (execList c4env c4conn c4rest).conn ∧
    (ExecuteCommands c4env c4req c4conn).req.commands_ = [] :=
  C4_auth_gate c4env c4req c4conn c4cmd c4rest rfl rfl rfl rfl (by decide)

theorem C5_witness :
    (c5attr.arity > 0 →
      ((runCmd c5env c5conn c5cmd).outcome ≠ Outcome.badArity ↔
        (c5cmd.length : Int) = c5attr.arity)) ∧
    (c5attr.arity < 0 →
      ((runCmd c5env c5conn c5cmd).outcome ≠ Outcome.badArity ↔
        -c5attr.arity ≤ (c5cmd.length : Int))) ∧
    (arityMismatch c5attr.arity c5cmd.length →
      runCmd c5env c5conn c5cmd =
        { conn := c5conn, replies := [Reply.err wrongArgsMsg], lookups := [c5cmd.headD []]
          executed := [], outcome := Outcome.badArity } ∧
      ∀ rest, c5conn.close_after_reply = false →
        execList c5env c5conn (c5cmd :: rest) =
          { execList c5env c5conn rest with
            replies := Reply.err wrongArgsMsg :: (execList c5env c5conn rest).replies
            lookups := c5cmd.headD [] :: (execList c5env c5conn rest).lookups }) :=
  C5_arity_enforcement c5env c5conn c5cmd c5attr (by decide) rfl

theorem C6_witness :
    runCmd c6env c6conn c6wcmd =
      { conn := c6conn, replies := [Reply.err readonlyMsg], lookups := [c6wcmd.headD []]
        executed := [], outcome := Outcome.readonly } ∧
    ((runCmd c6env c6conn c6rcmd).executed = [c6rattr.name] ∧
      (runCmd c6env c6conn c6rcmd).outcome ≠ Outcome.readonly) :=
  ⟨(C6_readonly_gate c6env c6conn c6wcmd c6wattr (by decide) rfl (by decide) rfl rfl).1 rfl rfl,
   (C6_readonly_gate c6env c6conn c6rcmd c6rattr (by decide) rfl (by decide) rfl rfl).2.1 rfl rfl⟩

theorem C2_amended_witness :
    (Request.Tokenize initReq ([42, 45, 49] ++ [13, 10])).multi_bulk_len_ =
      declaredCount [42, 45, 49] ∧
    (Request.Tokenize initReq (([42, 45, 49] ++ [13, 10]) ++ encodeBulk [97])).commands_ =
      [[[97]]] ∧
    (Request.Tokenize initReq (([42, 48] ++ [13, 10]) ++ encodeBulk [97])).commands_ =
      [[[97]]] ∧
    (Request.Tokenize initReq (([42, 48, 48] ++ [13, 10]) ++ encodeBulk [97])).commands_ =
      [[[97]]] ∧
    (Request.Tokenize initReq (([] ++ [13, 10]))).multi_bulk_len_ = declaredCount [] :=
  ⟨(C2_amended_count_zero [42, 45, 49] [97] (by decide) (by decide) (by decide)).2.2.1,
   (C2_amended_count_zero [42, 45, 49] [97] (by decide) (by decide) (by decide)).2.2.2.1,
   (C2_amended_count_zero [42, 48] [97] (by decide) (by decide) (by decide)).2.2.2.1,
   (C2_amended_count_zero [42, 48, 48] [97] (by decide) (by decide) (by decide)).2.2.2.1,
   (C2_amended_count_zero [] [97] (by decide) (by decide) (by decide)).2.2.1⟩

/-- C9: subscribing to an already-subscribed channel is a no-op with no
registry notification, and a fresh subscription notifies once — but
unsubscribing a channel that sits at the END of the subscription list erases
it, notifies once, and then advances the invalidated iterator past the
container's end and dereferences out of bounds (undefined behaviour): the
operation is not the clean single-removal the claim requires.  When the
matched channel is not last, the loop happens to terminate correctly. -/
theorem C9_unsubscribe_oob :
    SubscribeChannel ["news"] "news" = (["news"], []) ∧
    SubscribeChannel [] "news" = (["news"], ["news"]) ∧
    UnSubscribeChannel ["news"] "news" = none ∧
    UnSubscribeChannel ["news", "chat"] "news" = some (["chat"], 1) := by decide

/-- C10: after consuming the header `*1`, the decoder waits in the bulk-header
state; delivering a bare CRLF makes `evbuffer_readln` return a zero-length
line, and the unguarded `strtoull(line + 1)` of the bulk-header state then
reads index 1 of a 1-byte allocation — out of bounds.  A nonempty header line
(as the array-header state's `len > 0` guard ensures for its own parse) keeps
every read in bounds. -/
theorem C10_bulk_header_oob :
    (Request.Tokenize initReq [42, 49, 13, 10]).state_ = ReqState.BulkLen ∧
    (Request.Tokenize initReq [42, 49, 13, 10]).buffer = [] ∧
    readln [13, 10] = some ([], []) ∧
    ¬ accessesInBounds [] 1 ∧
    accessesInBounds [48] 1 := by decide

end Redis

